import Mathlib

/-!
Shallow embedding of the signal-acquisition and analysis core of
`logic_analyzer.py` (ACS Laptop Debug Analyzer): the simulated waveform
generator, the measurement statistics engine (`MeasurementEngine`),
the protocol decoders (`ProtocolDecoder`), the capture scheduler of
`LaptopDebugAnalyzer` (`start_capture` / `stop_capture` /
`update_capture`), cursor measurements and the FFT fundamental step.

Voltages, times and thresholds are exact rationals (`ℚ`); the spectral
step, which needs transcendental functions, lives over `ℝ`/`ℂ`.
Python code that can raise an uncaught exception is modelled with
`Except String`; a Python dict with optional keys becomes a record
with `Option` fields, and the empty dict becomes `none`.
-/

/- Batteries seals the rational field operations; restoring the default
reducibility lets concrete witnesses evaluate with `decide`. -/
attribute [local semireducible] Rat.add Rat.mul Rat.sub Rat.inv

deriving instance DecidableEq for Except

/-- `np.diff` on an integer array: element `i` is `a[i+1] - a[i]`;
the result has length `n - 1`. -/
def np_diff (l : List ℤ) : List ℤ :=
  List.zipWith (fun a b => b - a) l l.tail

/-- `.astype(int)` on a boolean value. -/
def boolInt (b : Bool) : ℤ :=
  if b then 1 else 0

/-- Elementwise `data > threshold` (strict, as in NumPy). -/
def binarize (data : List ℚ) (th : ℚ) : List Bool :=
  data.map (fun v => decide (th < v))

/-- `np.where(l == v)[0]`: the (increasing) list of indices of `l`
holding the value `v`. -/
def np_where_eq (l : List ℤ) (v : ℤ) : List ℕ :=
  (List.range l.length).filter (fun i => decide (l.getD i 0 = v))

/-- `np.mean` over rationals (callers only use it on non-empty input). -/
def np_mean (l : List ℚ) : ℚ :=
  l.sum / (l.length : ℚ)

/-- `np.min` of a non-empty array (`0` as an unused placeholder on `[]`). -/
def np_min : List ℚ → ℚ
  | [] => 0
  | x :: xs => xs.foldl min x

/-- `np.max` of a non-empty array (`0` as an unused placeholder on `[]`). -/
def np_max : List ℚ → ℚ
  | [] => 0
  | x :: xs => xs.foldl max x

/-- Insert into a sorted rational list (helper for the median). -/
def insertLe (x : ℚ) : List ℚ → List ℚ
  | [] => [x]
  | y :: ys => if x ≤ y then x :: y :: ys else y :: insertLe x ys

/-- Insertion sort, ascending. -/
def sortQ (l : List ℚ) : List ℚ :=
  l.foldr insertLe []

/-- `np.median`: middle element of the sorted copy for odd length,
average of the two middle elements for even length. -/
def np_median (l : List ℚ) : ℚ :=
  let s := sortQ l
  let n := l.length
  if n % 2 = 1 then s.getD (n / 2) 0
  else (s.getD (n / 2 - 1) 0 + s.getD (n / 2) 0) / 2

/-- The dict produced by `MeasurementEngine.calculate_statistics` for a
non-empty buffer.  The source stores `rms = sqrt(mean(x^2))` and
`std_dev = sqrt(mean((x-mean)^2))`; since those square roots are
irrational we store the exact radicands `msq` and `var` and expose the
stored values through `StatsRecord.rms` / `StatsRecord.std_dev` below.
Keys that the source adds only conditionally are `Option` fields. -/
structure StatsRecord where
  min : ℚ
  max : ℚ
  mean : ℚ
  msq : ℚ
  var : ℚ
  vpp : ℚ
  median : ℚ
  frequency : Option ℚ
  period : Option ℚ
  duty_cycle : Option ℚ
  rise_time : Option ℚ
  fall_time : Option ℚ
deriving DecidableEq

/-- The `rms` value the source stores: `sqrt(mean(x^2))`. -/
noncomputable def StatsRecord.rms (r : StatsRecord) : ℝ :=
  Real.sqrt (r.msq : ℝ)

/-- The `std_dev` value the source stores: `np.std(data)`. -/
noncomputable def StatsRecord.std_dev (r : StatsRecord) : ℝ :=
  Real.sqrt (r.var : ℝ)

/-- `periods = np.diff(rising_edges)` of `calculate_statistics`. -/
def edgePeriods (rising : List ℕ) : List ℤ :=
  np_diff (rising.map (fun k => (k : ℤ)))

/-- `avg_period = np.mean(periods)`. -/
def avgPeriod (rising : List ℕ) : ℚ :=
  np_mean ((edgePeriods rising).map (fun (z : ℤ) => (z : ℚ)))

/-- The `'duty_cycle'` key: pair each rising edge with the falling edge
at the same position when the rising one comes first, average the
resulting pulse widths and divide by the average period. -/
def dutyCyclePart (edges : List ℤ) (rising : List ℕ) (avg_period : ℚ) :
    Option ℚ :=
  let falling := np_where_eq edges (-1)
  if 0 < falling.length then
    let pulse_widths :=
      (List.range (Nat.min rising.length falling.length)).filterMap
        (fun i =>
          if rising.getD i 0 < falling.getD i 0 then
            some (((falling.getD i 0 : ℤ) : ℚ) - ((rising.getD i 0 : ℤ) : ℚ))
          else none)
    if pulse_widths ≠ [] then
      some (np_mean pulse_widths / avg_period * 100)
    else none
  else none

/-- The `'frequency'`/`'period'`/`'duty_cycle'` keys computed inside the
`len(data) > 10` branch of `calculate_statistics`.  `rising`/`edges`
are the rising-edge index array and the `np.diff` of the binarized
signal.  Mirrors the nested guards of the source exactly. -/
def frequencyPart (edges : List ℤ) (rising : List ℕ) :
    Option ℚ × Option ℚ × Option ℚ :=
  if 1 < rising.length then
    if 0 < (edgePeriods rising).length then
      if 0 < avgPeriod rising then
        (some (1 / avgPeriod rising), some (avgPeriod rising),
          dutyCyclePart edges rising (avgPeriod rising))
      else (none, none, none)
    else (none, none, none)
  else (none, none, none)

/-- `MeasurementEngine.calculate_statistics(data, threshold)`.

* empty buffer: returns the empty dict (modelled `.ok none`);
* `1 ≤ len(data) ≤ 10`: the source skips the `len(data) > 10` block, so
  the local name `rising_edges` is never bound, and the later
  `if len(rising_edges) > 0:` line raises `NameError` (the basic
  min/max/... dict built before that point is lost) — modelled as
  `.error`;
* `len(data) > 10`: the full record. -/
def calculate_statistics (data : List ℚ) (threshold : ℚ) :
    Except String (Option StatsRecord) :=
  if data.length = 0 then .ok none
  else if 10 < data.length then
    let m := np_mean data
    let digital := binarize data threshold
    let edges := np_diff (digital.map boolInt)
    let rising_edges := np_where_eq edges 1
    let fpd := frequencyPart edges rising_edges
    let rise_times := rising_edges.filterMap
      (fun e => if 10 ≤ e ∧ e + 10 < data.length then some (10 : ℚ) else none)
    let rt : Option ℚ := if rise_times ≠ [] then some (np_mean rise_times) else none
    .ok (some {
      min := np_min data
      max := np_max data
      mean := m
      msq := np_mean (data.map (fun v => v * v))
      var := np_mean (data.map (fun v => (v - m) * (v - m)))
      vpp := np_max data - np_min data
      median := np_median data
      frequency := fpd.1
      period := fpd.2.1
      duty_cycle := fpd.2.2
      rise_time := rt
      fall_time := rt.map (fun x => x * (9 / 10)) })
  else .error "NameError: rising_edges referenced before assignment"

/-- The `k`-th entry of `np.linspace(0, 0.001, n)`:
`0.001 * k / (n - 1)`.  For `n = 1` NumPy yields `[0.0]`, and the
rational convention `0 / 0 = 0` gives the same value. -/
def linspace1ms (n k : ℕ) : ℚ :=
  (1 / 1000) * (k : ℚ) / ((n : ℚ) - 1)

/-- `np.clip(x, lo, hi)`. -/
def np_clip (x lo hi : ℚ) : ℚ :=
  max lo (min x hi)

/-- Exact sign test of `np.sin(2 * np.pi * x) > 0` for rational `x`:
the sine of `2πx` is positive iff the fractional part of `x` lies in
`(0, 1/2)` (certified by `sinPosQ_iff_sin_pos` below). -/
def sinPosQ (x : ℚ) : Bool :=
  decide (0 < Int.fract x ∧ Int.fract x < 1 / 2)

/-- The channel-0 branch of
`HardwareInterface.generate_simulated_samples` (a square clock at
`freq` Hz over the 1 ms window, `(sin(2πft) > 0)*3.3`), with one
arbitrary additive-noise realization `noise` (the source draws
`np.random.randn(...) * 0.05`) and the final `np.clip(·, 0, 3.6)`. -/
def clock_channel (freq : ℚ) (n : ℕ) (noise : ℕ → ℚ) : List ℚ :=
  (List.range n).map (fun k =>
    np_clip ((if sinPosQ (freq * linspace1ms n k) then 33 / 10 else 0) + noise k)
      0 (18 / 5))

/-- The `'frequency'` key of a `calculate_statistics` result
(`none` when the call raised or the key is absent). -/
def statsFrequency (e : Except String (Option StatsRecord)) : Option ℚ :=
  match e with
  | .ok (some r) => r.frequency
  | _ => none

/-- A concrete noise draw for the C1 witness: one sample pushed high. -/
def noiseFlip8 : ℕ → ℚ :=
  fun k => if k = 8 then 33 / 10 else 0

/-- One decoded I2C transaction (address/data are never filled in by
the source). -/
structure I2CTrans where
  start : ℕ
  stop : ℕ
  address : Option ℕ
  data : List ℕ
  ptype : String
deriving DecidableEq

/-- `start_indices` of `ProtocolDecoder.decode_i2c`:
`np.where((scl_edges == 0) & (sda_edges == -1))[0]`.  Note the source
tests only that SCL has no edge and SDA has a falling edge; it never
checks that SCL is high. -/
def i2cStartIndices (scl_edges sda_edges : List ℤ) : List ℕ :=
  (List.range scl_edges.length).filter
    (fun i => decide (scl_edges.getD i 0 = 0 ∧ sda_edges.getD i 0 = -1))

/-- The stop-condition scan
`np.where((scl[start_idx:] == 1) & (sda_edges[start_idx:] == 1))[0]`
of `decode_i2c`.  `scl[start:]` has one element more than
`sda_edges[start:]`, so NumPy 1-D broadcasting only succeeds when a
shape is 1 or both agree; otherwise the line raises `ValueError`.
On success the element at index `i` pairs position
`min i (len-1)` of each operand (the length-1 operand is repeated),
and the result is the offset of the first `true`. -/
def i2cStopScan (scl : List Bool) (sda_edges : List ℤ) (start : ℕ) :
    Except String (Option ℕ) :=
  let a := scl.drop start
  let b := sda_edges.drop start
  if a.length = b.length ∨ a.length = 1 ∨ b.length = 1 then
    .ok ((List.range (Nat.max a.length b.length)).find?
      (fun i => a.getD (Nat.min i (a.length - 1)) false &&
        decide (b.getD (Nat.min i (b.length - 1)) 0 = 1)))
  else .error "ValueError: operands could not be broadcast together"

/-- `ProtocolDecoder.decode_i2c(data_ch1, data_ch2, threshold)`:
binarize both channels, compute their edge arrays, list the start
indices, and for each start scan for a stop; a start with a stop
yields one transaction, a start without one is dropped, and a start
whose scan raises propagates the exception. -/
def decode_i2c (data_ch1 data_ch2 : List ℚ) (threshold : ℚ) :
    Except String (List I2CTrans) :=
  let scl := binarize data_ch1 threshold
  let sda := binarize data_ch2 threshold
  let scl_edges := np_diff (scl.map boolInt)
  let sda_edges := np_diff (sda.map boolInt)
  (i2cStartIndices scl_edges sda_edges).foldlM
    (fun acc start => do
      let r ← i2cStopScan scl sda_edges start
      match r with
      | some rel =>
          pure (acc ++ [{ start := start, stop := start + rel,
                          address := none, data := [], ptype := "I2C" }])
      | none => pure acc)
    []

/-- One decoded SPI transaction. -/
structure SpiTrans where
  mosi : ℕ
  miso : ℕ
  position : ℕ
  ptype : String
deriving DecidableEq

/-- `1 if chan[idx] > threshold else 0`, raising `IndexError` when the
index is out of range as Python does. -/
def chan_bit (chan : List ℚ) (th : ℚ) (idx : ℕ) : Except String ℕ :=
  if h : idx < chan.length then .ok (if th < chan[idx] then 1 else 0)
  else .error "IndexError: channel index out of range"

/-- `int(''.join(map(str, bits)), 2)`: parse a bit list as a base-2
numeral, most significant bit first. -/
def bitsToByte (bits : List ℕ) : ℕ :=
  bits.foldl (fun acc b => 2 * acc + b) 0

/-- The in-range sampled bit `1 if chan[idx] > threshold else 0`. -/
def bitAt (chan : List ℚ) (th : ℚ) (e : ℕ) : ℕ :=
  if th < chan.getD e 0 then 1 else 0

/-- Rising-edge indices of the thresholded clock:
`np.where(np.diff((sclk > threshold).astype(int)) == 1)[0]`. -/
def risingEdges (sclk : List ℚ) (th : ℚ) : List ℕ :=
  np_where_eq (np_diff ((binarize sclk th).map boolInt)) 1

/-- The byte loop of `ProtocolDecoder.decode_spi`:
`for i in range(0, len(rising_edges), 8)` keeps each full group of 8
rising edges (`i + 8 <= len`), samples MOSI/MISO at the group's edge
indices, assembles one byte per channel, and drops the trailing
partial group.  `i` is the running position counter. -/
def decode_spi_groups (mosi miso : List ℚ) (th : ℚ) :
    List ℕ → ℕ → Except String (List SpiTrans)
  | e0 :: e1 :: e2 :: e3 :: e4 :: e5 :: e6 :: e7 :: rest, i => do
    let grp := [e0, e1, e2, e3, e4, e5, e6, e7]
    let mosi_bits ← grp.mapM (chan_bit mosi th)
    let miso_bits ← grp.mapM (chan_bit miso th)
    let rest_trans ← decode_spi_groups mosi miso th rest (i + 8)
    pure ({ mosi := bitsToByte mosi_bits, miso := bitsToByte miso_bits,
            position := i, ptype := "SPI" } :: rest_trans)
  | _, _ => pure []

/-- `cs_active = cs < threshold` — computed by `decode_spi` and never
used afterwards (CS does not gate the byte assembly). -/
def cs_active (cs : List ℚ) (th : ℚ) : List Bool :=
  cs.map (fun v => decide (v < th))

/-- `ProtocolDecoder.decode_spi(mosi, miso, sclk, cs, threshold)`.
The source computes `cs_active` and then ignores it. -/
def decode_spi (mosi miso sclk cs : List ℚ) (threshold : ℚ) :
    Except String (List SpiTrans) :=
  let _cs_state := cs_active cs threshold
  decode_spi_groups mosi miso threshold (risingEdges sclk threshold) 0

/-- The independent most-significant-bit-first value of a bit list:
bit `j` weighs `2 ^ (len - 1 - j)`. -/
def msbValue (bits : List ℕ) : ℕ :=
  ∑ j in Finset.range bits.length, bits.getD j 0 * 2 ^ (bits.length - 1 - j)

/-- Concrete SPI clock trace for witnesses: 8 rising edges at indices
0, 2, ..., 14. -/
def spiClockW : List ℚ :=
  [0, 33/10, 0, 33/10, 0, 33/10, 0, 33/10, 0, 33/10, 0, 33/10, 0, 33/10, 0, 33/10]

/-- Concrete all-high data channel (3.3 V) for witnesses. -/
def spiHighW : List ℚ :=
  List.replicate 16 (33 / 10)

/-- Concrete all-low data channel (0 V) for witnesses. -/
def spiLowW : List ℚ :=
  List.replicate 16 0

/-- A `QTimer` as scheduler state: an identity (creation order) and
whether it is currently running. -/
structure TimerState where
  id : ℕ
  active : Bool
deriving DecidableEq

/-- The scheduler-relevant state of `LaptopDebugAnalyzer`:
the `is_capturing` flag, the per-channel `capture_data` buffers
(`(time, voltage)` arrays), the capture and auto-save `QTimer`s (with
`next_timer_id` supplying identities for newly constructed timers),
the per-channel enable checkboxes, and the configuration values the
capture path reads.  `dialog_continue` is the user's answer to the
high-sample-rate prompt of `validate_capture_settings`. -/
structure AnalyzerState where
  is_capturing : Bool
  capture_data : ℕ → Option (List ℚ × List ℚ)
  capture_timer : Option TimerState
  auto_save_timer : Option TimerState
  next_timer_id : ℕ
  channels_enabled : List Bool
  sample_rate : ℚ
  dialog_continue : Bool
  auto_save : Bool
  buffer_size : ℕ

/-- `validate_capture_settings`: at least one channel must be enabled;
a sample rate above 100 MS/s additionally needs the user to confirm
the dialog. -/
def validate_capture_settings (s : AnalyzerState) : Bool :=
  s.channels_enabled.any id &&
    (decide (s.sample_rate ≤ 100000000) || s.dialog_continue)

/-- `LaptopDebugAnalyzer.start_capture`: if validation fails, nothing
happens; otherwise — with no check of `is_capturing` — the capturing
flag is set, `capture_data.clear()` empties every channel buffer, a
fresh `QTimer` is constructed and started as the tick source, and, if
auto-save is configured, a fresh auto-save timer as well. -/
def start_capture (s : AnalyzerState) : AnalyzerState :=
  if validate_capture_settings s = false then s
  else
    let s1 := { s with
      is_capturing := true
      capture_data := fun _ => none
      capture_timer := some ⟨s.next_timer_id, true⟩
      next_timer_id := s.next_timer_id + 1 }
    if s.auto_save then
      { s1 with
        auto_save_timer := some ⟨s1.next_timer_id, true⟩
        next_timer_id := s1.next_timer_id + 1 }
    else s1

/-- `LaptopDebugAnalyzer.stop_capture`: clear the capturing flag and
stop the capture/auto-save timers when they exist. -/
def stop_capture (s : AnalyzerState) : AnalyzerState :=
  { s with
    is_capturing := false
    capture_timer := s.capture_timer.map (fun t => { t with active := false })
    auto_save_timer := s.auto_save_timer.map (fun t => { t with active := false }) }

/-- The scheduler is Idle: not capturing and no active timer. -/
def IsIdle (s : AnalyzerState) : Prop :=
  s.is_capturing = false ∧
  (∀ t, s.capture_timer = some t → t.active = false) ∧
  (∀ t, s.auto_save_timer = some t → t.active = false)

/-- The buffer-update part of `LaptopDebugAnalyzer.update_capture`:
when capturing, each enabled channel present in the batch gets its
`capture_data` entry REPLACED by the batch's `(time, data)` arrays
(`self.capture_data[ch] = {...}`); nothing is appended and no bound is
applied. -/
def update_capture (s : AnalyzerState)
    (channel_data : List (ℕ × (List ℚ × List ℚ))) : AnalyzerState :=
  if s.is_capturing = false then s
  else
    { s with
      capture_data := channel_data.foldl
        (fun cd chd =>
          if chd.1 < s.channels_enabled.length ∧
              s.channels_enabled.getD chd.1 false = true then
            Function.update cd chd.1 (some chd.2)
          else cd)
        s.capture_data }

/-- Modelled from the spec (claim C6): the FIFO-bounded append the
spec describes — after appending, the buffer holds exactly the most
recent `bound` samples, oldest discarded first. -/
def fifoAppend (old new : List ℚ) (bound : ℕ) : List ℚ :=
  (old ++ new).drop ((old ++ new).length - bound)

/-- A concrete Running scheduler state for the C6/C8 evidence: one
enabled channel whose buffer holds two samples, an active tick source,
and a configured buffer bound of 3. -/
def schedRunW : AnalyzerState :=
  { is_capturing := true
    capture_data := fun ch => if ch = 0 then some ([0, 1/1000], [1, 2]) else none
    capture_timer := some ⟨0, true⟩
    auto_save_timer := none
    next_timer_id := 1
    channels_enabled := [true]
    sample_rate := 24000000
    dialog_continue := true
    auto_save := false
    buffer_size := 3 }

/-- A concrete Idle scheduler state (stopped timer left over). -/
def schedIdleW : AnalyzerState :=
  { is_capturing := false
    capture_data := fun _ => none
    capture_timer := some ⟨0, false⟩
    auto_save_timer := none
    next_timer_id := 1
    channels_enabled := [true]
    sample_rate := 24000000
    dialog_continue := true
    auto_save := false
    buffer_size := 3 }

/-- The cursor measurement record published by
`update_cursor_measurements`: both cursors' nearest samples, the
deltas, and the derived frequency (absent when `Δt = 0`, since the
source only writes the frequency label under `if dt > 0`). -/
structure CursorRec where
  t1 : ℚ
  v1 : ℚ
  t2 : ℚ
  v2 : ℚ
  dt : ℚ
  dv : ℚ
  freq : Option ℚ
deriving DecidableEq

/-- Scan for the first index minimizing `|x - c|` (strict improvement
only, so ties keep the earliest index, as `np.argmin` does). -/
def argminAbsAux (c : ℚ) : List ℚ → ℚ → ℕ → ℕ → ℕ
  | [], _, bi, _ => bi
  | x :: xs, bv, bi, i =>
    if |x - c| < bv then argminAbsAux c xs |x - c| i (i + 1)
    else argminAbsAux c xs bv bi (i + 1)

/-- `np.argmin(np.abs(time - c))`: `none` models the `ValueError`
NumPy raises on an empty array (swallowed by the caller's bare
`except`). -/
def np_argmin_abs (l : List ℚ) (c : ℚ) : Option ℕ :=
  match l with
  | [] => none
  | x :: xs => some (argminAbsAux c xs |x - c| 0 1)

/-- The measurement body of
`LaptopDebugAnalyzer.update_cursor_measurements` once both nearest
sample indices are known: guard both indices against `data`, read off
the cursor samples, and compute `Δt` (in ms), `Δv`, and — only under
`if dt > 0` — the derived frequency. -/
def cursorCore (timeL dataL : List ℚ) (i1 i2 : ℕ) : Option CursorRec :=
  if i1 < dataL.length ∧ i2 < dataL.length then
    let v1 := dataL.getD i1 0
    let v2 := dataL.getD i2 0
    let t1 := timeL.getD i1 0
    let t2 := timeL.getD i2 0
    let dt := |t2 - t1| * 1000
    let dv := |v2 - v1|
    some { t1 := t1, v1 := v1, t2 := t2, v2 := v2, dt := dt, dv := dv,
           freq := if 0 < dt then some (1 / (dt * (1 / 1000))) else none }
  else none

/-- Dispatch on the two nearest-sample lookups; any lookup failure
(`ValueError` on the empty array, swallowed by the bare `except`)
produces no measurement. -/
def update_cursor_measurements (timeL dataL : List ℚ) (c1 c2 : ℚ) :
    Option CursorRec :=
  match np_argmin_abs timeL c1, np_argmin_abs timeL c2 with
  | some i1, some i2 => cursorCore timeL dataL i1 i2
  | _, _ => none

/-- `np.mean` over reals. -/
noncomputable def np_mean_r (l : List ℝ) : ℝ :=
  l.sum / (l.length : ℝ)

/-- `np.hanning(n)`: `0.5 - 0.5*cos(2πk/(n-1))`; NumPy returns `[1.]`
for `n = 1`. -/
noncomputable def np_hanning (n : ℕ) : List ℝ :=
  if n = 1 then [1]
  else (List.range n).map
    (fun k => 1 / 2 - 1 / 2 * Real.cos (2 * Real.pi * k / ((n : ℝ) - 1)))

/-- Bin `k` of the discrete Fourier transform `np.fft.fft(x)`:
`X_k = Σ_j x_j · exp(-2πi·k·j/n)`. -/
noncomputable def dftPoint (x : List ℝ) (k : ℕ) : ℂ :=
  ∑ j in Finset.range x.length,
    (x.getD j 0 : ℂ) *
      Complex.exp (-2 * Real.pi * Complex.I * k * j / (x.length : ℂ))

/-- The magnitude pipeline of `LaptopDebugAnalyzer.update_fft`:
subtract the mean, multiply by the Hann window, transform, and keep
the magnitudes of the first half of the bins. -/
noncomputable def fftMagnitude (data : List ℝ) : List ℝ :=
  let centered := data.map (fun v => v - np_mean_r data)
  let windowed := List.zipWith (fun a b => a * b) centered
    (np_hanning data.length)
  (List.range (data.length / 2)).map
    (fun k => Complex.abs (dftPoint windowed k))

/-- `fft_db = 20 * np.log10(fft_magnitude + 1e-10)`. -/
noncomputable def np_fft_db (data : List ℝ) : List ℝ :=
  (fftMagnitude data).map (fun m => 20 * Real.logb 10 (m + 1 / 10 ^ 10))

/-- `np.fft.fftfreq(n, d=1/24e6)[:n//2]`: bin `k` maps to
`k · 24e6 / n` Hz. -/
noncomputable def fftFrequencies (n : ℕ) : List ℝ :=
  (List.range (n / 2)).map (fun k => (k : ℝ) * 24000000 / (n : ℝ))

open Classical in
/-- Scan for the first index holding the running maximum (strict
improvement only, matching `np.argmax` tie-breaking). -/
noncomputable def npArgmaxAux : List ℝ → ℝ → ℕ → ℕ → ℕ
  | [], _, bi, _ => bi
  | x :: xs, bv, bi, i =>
    if bv < x then npArgmaxAux xs x i (i + 1)
    else npArgmaxAux xs bv bi (i + 1)

/-- `np.argmax` (first maximal index; callers guard non-emptiness). -/
noncomputable def np_argmax (l : List ℝ) : ℕ :=
  match l with
  | [] => 0
  | x :: xs => npArgmaxAux xs x 0 1

/-- `fundamental_idx = np.argmax(fft_magnitude[10:]) + 10`. -/
noncomputable def fundamental_idx (data : List ℝ) : ℕ :=
  np_argmax ((fftMagnitude data).drop 10) + 10

/-- The fundamental-frequency report of `update_fft`: guarded by
`len(fft_magnitude) > 10`, it publishes
`(frequencies[fundamental_idx], fft_db[fundamental_idx])`. -/
noncomputable def fundamental_report (data : List ℝ) : Option (ℝ × ℝ) :=
  if 10 < (fftMagnitude data).length then
    some ((fftFrequencies data.length).getD (fundamental_idx data) 0,
          (np_fft_db data).getD (fundamental_idx data) 0)
  else none

/-- `sinPosQ` computes exactly the sign test `np.sin(2πx) > 0` that
the simulator applies to generate the clock channel. -/
theorem sinPosQ_iff_sin_pos (x : ℚ) :
    sinPosQ x = true ↔ 0 < Real.sin (2 * Real.pi * (x : ℝ)) := by
  have hfr : Int.fract ((x : ℝ)) = ((Int.fract x : ℚ) : ℝ) := by
    unfold Int.fract
    rw [Rat.floor_cast]
    push_cast
    ring
  have hsplit : ((x : ℝ)) = Int.fract ((x : ℝ)) + (⌊(x : ℝ)⌋ : ℝ) := by
    unfold Int.fract
    ring
  have hsin : Real.sin (2 * Real.pi * (x : ℝ)) =
      Real.sin (2 * Real.pi * ((Int.fract x : ℚ) : ℝ)) := by
    rw [← hfr]
    conv_lhs => rw [hsplit]
    rw [show 2 * Real.pi * (Int.fract ((x : ℝ)) + (⌊(x : ℝ)⌋ : ℝ)) =
        2 * Real.pi * Int.fract ((x : ℝ)) + (⌊(x : ℝ)⌋ : ℤ) * (2 * Real.pi) by
      ring]
    exact Real.sin_add_int_mul_two_pi _ _
  have h0 : (0 : ℚ) ≤ Int.fract x := Int.fract_nonneg x
  have h1 : Int.fract x < 1 := Int.fract_lt_one x
  have h1R : ((Int.fract x : ℚ) : ℝ) < 1 := by exact_mod_cast h1
  have h0R : (0 : ℝ) ≤ ((Int.fract x : ℚ) : ℝ) := by exact_mod_cast h0
  rw [hsin, sinPosQ, decide_eq_true_eq]
  constructor
  · rintro ⟨hp, hh⟩
    have hh2 : (2 : ℚ) * Int.fract x < 1 := by linarith
    have hh2R : (2 : ℝ) * ((Int.fract x : ℚ) : ℝ) < 1 := by exact_mod_cast hh2
    have hpR : (0 : ℝ) < ((Int.fract x : ℚ) : ℝ) := by exact_mod_cast hp
    apply Real.sin_pos_of_pos_of_lt_pi
    · nlinarith [Real.pi_pos]
    · nlinarith [Real.pi_pos]
  · intro hpos
    by_contra hc
    push_neg at hc
    rcases lt_or_eq_of_le h0 with hp | hz
    · have hh : (1 : ℚ) ≤ 2 * Int.fract x := by
        have := hc hp
        linarith
      have hhR : (1 : ℝ) ≤ 2 * ((Int.fract x : ℚ) : ℝ) := by exact_mod_cast hh
      set θ : ℝ := 2 * Real.pi * ((Int.fract x : ℚ) : ℝ) with hθ
      have hge : Real.pi ≤ θ := by
        rw [hθ]
        nlinarith [Real.pi_pos]
      have hlt : θ < 2 * Real.pi := by
        rw [hθ]
        nlinarith [Real.pi_pos]
      have hrw : Real.sin θ = -Real.sin (θ - Real.pi) := by
        rw [show θ = (θ - Real.pi) + Real.pi by ring, Real.sin_add_pi]
        ring_nf
      have hnn : 0 ≤ Real.sin (θ - Real.pi) :=
        Real.sin_nonneg_of_nonneg_of_le_pi (by linarith) (by linarith)
      rw [hrw] at hpos
      linarith
    · rw [← hz] at hpos
      rw [show (((0 : ℚ) : ℝ)) = 0 by norm_num, mul_zero, Real.sin_zero] at hpos
      exact lt_irrefl 0 hpos

/-- The rising-edge index list is strictly increasing. -/
theorem np_where_eq_pairwise (l : List ℤ) (v : ℤ) :
    (np_where_eq l v).Pairwise (· < ·) :=
  (List.pairwise_lt_range _).filter _

/-- Differences of a strictly increasing index list are at least 1. -/
theorem edgePeriods_one_le (l : List ℕ) (hp : l.Pairwise (· < ·)) :
    ∀ d ∈ edgePeriods l, 1 ≤ d := by
  induction l with
  | nil => simp [edgePeriods, np_diff]
  | cons a t ih =>
    cases t with
    | nil => simp [edgePeriods, np_diff]
    | cons b t2 =>
      intro d hd
      have hab : a < b := (List.pairwise_cons.mp hp).1 b (by simp)
      have htl : (b :: t2).Pairwise (· < ·) := (List.pairwise_cons.mp hp).2
      simp only [edgePeriods, List.map_cons, np_diff, List.tail_cons,
        List.zipWith_cons_cons] at hd
      rcases List.mem_cons.mp hd with h | h
      · subst h
        change (1 : ℤ) ≤ (b : ℤ) - (a : ℤ)
        omega
      · exact ih htl d (by simpa [edgePeriods, np_diff] using h)

/-- A list of rationals all at least 1 sums to at least its length. -/
theorem length_le_sum_of_one_le (l : List ℚ) (h : ∀ x ∈ l, 1 ≤ x) :
    (l.length : ℚ) ≤ l.sum := by
  induction l with
  | nil => simp
  | cons a t ih =>
    have ha : 1 ≤ a := h a (by simp)
    have ht := ih (fun x hx => h x (by simp [hx]))
    simp only [List.length_cons, List.sum_cons]
    push_cast
    linarith

/-- The mean of a non-empty list of rationals all at least 1 is at
least 1. -/
theorem one_le_np_mean (l : List ℚ) (hne : l ≠ []) (h : ∀ x ∈ l, 1 ≤ x) :
    1 ≤ np_mean l := by
  have hlen : 0 < (l.length : ℚ) := by
    have := List.length_pos.mpr hne
    exact_mod_cast this
  rw [np_mean, one_le_div hlen]
  exact length_le_sum_of_one_le l h

/-- If `frequencyPart` yields a frequency, it is `1 / avg_period` with
`avg_period` a mean of positive integer sample-index differences, so
the value lies in `(0, 1]` — in units of 1/sample, not Hz. -/
theorem frequencyPart_fst_le_one (edges : List ℤ) (rising : List ℕ)
    (hp : rising.Pairwise (· < ·)) (f : ℚ)
    (h : (frequencyPart edges rising).1 = some f) : 0 < f ∧ f ≤ 1 := by
  unfold frequencyPart at h
  split_ifs at h with h1 h2 h3
  · have hf : 1 / avgPeriod rising = f := Option.some.inj h
    subst hf
    have hper : ∀ d ∈ edgePeriods rising, 1 ≤ d :=
      edgePeriods_one_le rising hp
    have hne : (edgePeriods rising).map (fun (z : ℤ) => (z : ℚ)) ≠ [] := by
      apply List.length_pos.mp
      rw [List.length_map]
      exact h2
    have havg : 1 ≤ avgPeriod rising := by
      unfold avgPeriod
      apply one_le_np_mean _ hne
      intro x hx
      simp only [List.mem_map] at hx
      obtain ⟨z, hz, hzx⟩ := hx
      subst hzx
      exact_mod_cast hper z hz
    constructor
    · exact div_pos one_pos h3
    · rw [div_le_one h3]
      linarith

/-- Whenever `calculate_statistics` produces a `'frequency'` key its
value lies in `(0, 1]`: it is the reciprocal of a mean of sample-index
differences, so it is measured in 1/sample, never in hertz. -/
theorem stats_frequency_le_one (data : List ℚ) (th : ℚ) (f : ℚ)
    (h : statsFrequency (calculate_statistics data th) = some f) :
    0 < f ∧ f ≤ 1 := by
  unfold calculate_statistics at h
  by_cases h0 : data.length = 0
  · rw [if_pos h0] at h
    simp [statsFrequency] at h
  · rw [if_neg h0] at h
    by_cases h10 : 10 < data.length
    · rw [if_pos h10] at h
      simp only [statsFrequency] at h
      exact frequencyPart_fst_le_one _ _ (np_where_eq_pairwise _ _) f h
    · rw [if_neg h10] at h
      simp [statsFrequency] at h

/-- C1 (code bug): for every channel index `i`, buffer length `n` and
noise realization, if the statistics of the simulated clock channel
contain a frequency at all, that frequency is never within 5% of
`1000*(i+1)` Hz — the source divides by an average period measured in
samples, not seconds, so the value is at most 1. -/
theorem C1_clock_frequency_not_in_hz (i n : ℕ) (noise : ℕ → ℚ) (f : ℚ)
    (h : statsFrequency
        (calculate_statistics (clock_channel (1000 * ((i : ℚ) + 1)) n noise) (9 / 5)) =
      some f) :
    ¬ |f - 1000 * ((i : ℚ) + 1)| ≤ 1000 * ((i : ℚ) + 1) * 5 / 100 := by
  obtain ⟨hf0, hf1⟩ := stats_frequency_le_one _ _ _ h
  have hi : (0 : ℚ) ≤ (i : ℚ) := Nat.cast_nonneg i
  intro habs
  rw [abs_le] at habs
  linarith [habs.1]

/-- Witness for C1: on a 12-sample channel-0 clock with one
noise-flipped sample the source reports frequency `1/7` (per sample),
which is not within 5% of 1000 Hz. -/
theorem C1_clock_frequency_not_in_hz_witness :
    ¬ |(1 / 7 : ℚ) - 1000 * (((0 : ℕ) : ℚ) + 1)| ≤
        1000 * (((0 : ℕ) : ℚ) + 1) * 5 / 100 :=
  C1_clock_frequency_not_in_hz 0 12 noiseFlip8 (1 / 7) (by decide)

/-- C3: `calculate_statistics` on the empty buffer returns the empty
record (no keys) and does not throw. -/
theorem C3_empty_buffer_stats (threshold : ℚ) :
    calculate_statistics [] threshold = .ok none := rfl

/-- C2 (code bug): for every non-empty buffer of length at most 10,
`calculate_statistics` raises `NameError` instead of returning a
record: the name `rising_edges` is only assigned inside the
`len(data) > 10` block but is read unconditionally afterwards. -/
theorem C2_short_buffer_raises (data : List ℚ) (threshold : ℚ)
    (h1 : data ≠ []) (h2 : data.length ≤ 10) :
    calculate_statistics data threshold =
      .error "NameError: rising_edges referenced before assignment" := by
  have hlen : ¬ data.length = 0 := by
    simpa [List.length_eq_zero] using h1
  unfold calculate_statistics
  rw [if_neg hlen, if_neg (by omega)]

/-- Witness for C2 at the concrete one-sample buffer `[5/2]`. -/
theorem C2_short_buffer_raises_witness :
    calculate_statistics [(5 / 2 : ℚ)] (9 / 5) =
      .error "NameError: rising_edges referenced before assignment" :=
  C2_short_buffer_raises [(5 / 2 : ℚ)] (9 / 5) (by decide) (by decide)

/-- A full batch of in-range samples maps to its bit list. -/
theorem mapM_chan_bit_ok (chan : List ℚ) (th : ℚ) (grp : List ℕ)
    (h : ∀ e ∈ grp, e < chan.length) :
    grp.mapM (chan_bit chan th) = .ok (grp.map (bitAt chan th)) := by
  induction grp with
  | nil => rfl
  | cons e t ih =>
    have he : e < chan.length := h e (by simp)
    have ht := ih (fun x hx => h x (by simp [hx]))
    have hval : chan.getD e 0 = chan[e] := List.getD_eq_getElem chan 0 he
    simp only [List.mapM_cons, ht, chan_bit, dif_pos he, List.map_cons, bitAt, hval]
    rfl

/-- If the batched sampling succeeded, every index was in range and
the result is the bit list. -/
theorem mapM_chan_bit_inv (chan : List ℚ) (th : ℚ) (grp : List ℕ) :
    ∀ bl, grp.mapM (chan_bit chan th) = .ok bl →
      bl = grp.map (bitAt chan th) := by
  induction grp with
  | nil =>
    intro bl h
    simp only [List.mapM_nil] at h
    cases h
    rfl
  | cons e t ih =>
    intro bl h
    rw [List.mapM_cons] at h
    by_cases he : e < chan.length
    · rw [chan_bit] at h
      rw [dif_pos he] at h
      cases hm2 : t.mapM (chan_bit chan th) with
      | error s =>
        rw [hm2] at h
        simp [bind, Except.bind] at h
      | ok xs =>
        rw [hm2] at h
        simp only [bind, Except.bind, pure, Except.pure, Except.ok.injEq] at h
        have hval : chan.getD e 0 = chan[e] := List.getD_eq_getElem chan 0 he
        have hbit : bitAt chan th e = if th < chan[e] then 1 else 0 := by
          simp only [bitAt, hval]
        rw [← h, ih xs hm2, List.map_cons, hbit]
    · rw [chan_bit] at h
      rw [dif_neg he] at h
      simp [bind, Except.bind] at h

/-- Base-2 folding is bounded by `2 ^ length` when all bits are 0/1. -/
theorem foldl_bits_lt (l : List ℕ) : ∀ a, (∀ b ∈ l, b ≤ 1) →
    l.foldl (fun acc b => 2 * acc + b) a < (a + 1) * 2 ^ l.length := by
  induction l with
  | nil =>
    intro a _
    simp only [List.foldl_nil, List.length_nil, pow_zero, mul_one]
    exact Nat.lt_succ_self a
  | cons b t ih =>
    intro a h
    have hb : b ≤ 1 := h b (by simp)
    have ht := ih (2 * a + b) (fun x hx => h x (by simp [hx]))
    rw [List.foldl_cons]
    calc t.foldl (fun acc b => 2 * acc + b) (2 * a + b)
        < (2 * a + b + 1) * 2 ^ t.length := ht
      _ ≤ (2 * (a + 1)) * 2 ^ t.length := by
          have hc : 2 * a + b + 1 ≤ 2 * (a + 1) := by omega
          exact Nat.mul_le_mul_right _ hc
      _ = (a + 1) * 2 ^ (b :: t).length := by
          rw [List.length_cons, pow_succ]
          ring

/-- A byte assembled from 0/1 bits is below `2 ^ length`. -/
theorem bitsToByte_lt (l : List ℕ) (h : ∀ b ∈ l, b ≤ 1) :
    bitsToByte l < 2 ^ l.length := by
  simpa [bitsToByte] using foldl_bits_lt l 0 h

/-- Peeling the most significant bit off `msbValue`. -/
theorem msbValue_cons (b : ℕ) (t : List ℕ) :
    msbValue (b :: t) = b * 2 ^ t.length + msbValue t := by
  unfold msbValue
  rw [List.length_cons, Finset.sum_range_succ']
  simp only [List.getD_cons_succ, List.getD_cons_zero, Nat.add_sub_cancel,
    Nat.sub_zero]
  rw [Finset.sum_congr rfl
    (fun j _ => by rw [show t.length - (j + 1) = t.length - 1 - j by omega])]
  exact Nat.add_comm _ _

/-- The base-2 fold computes the most-significant-bit-first value. -/
theorem foldl_eq_msbValue (l : List ℕ) : ∀ a,
    l.foldl (fun acc b => 2 * acc + b) a = a * 2 ^ l.length + msbValue l := by
  induction l with
  | nil =>
    intro a
    simp [msbValue]
  | cons b t ih =>
    intro a
    rw [List.foldl_cons, ih (2 * a + b), msbValue_cons, List.length_cons,
      pow_succ]
    ring

/-- `int(''.join(bits), 2)` is the MSB-first value of the bit list. -/
theorem bitsToByte_eq_msbValue (l : List ℕ) : bitsToByte l = msbValue l := by
  simpa [bitsToByte] using foldl_eq_msbValue l 0

/-- `np.diff` shortens a list by one. -/
theorem np_diff_length (l : List ℤ) : (np_diff l).length = l.length - 1 := by
  simp only [np_diff, List.length_zipWith, List.length_tail]
  omega

/-- Indices returned by `np.where` are in range. -/
theorem np_where_eq_mem_lt (l : List ℤ) (v : ℤ) (e : ℕ)
    (he : e ∈ np_where_eq l v) : e < l.length := by
  have h := List.mem_filter.mp he
  exact List.mem_range.mp h.1

/-- A rising-edge index always has a successor sample. -/
theorem risingEdges_mem_lt (sclk : List ℚ) (th : ℚ) (e : ℕ)
    (he : e ∈ risingEdges sclk th) : e + 1 < sclk.length := by
  have h1 := np_where_eq_mem_lt _ _ _ he
  rw [np_diff_length, List.length_map] at h1
  rw [binarize, List.length_map] at h1
  omega

/-- The byte loop succeeds when all edge indices are in range for both
data channels, and emits exactly one transaction per full group of 8
edges. -/
theorem decode_spi_groups_ok (mosi miso : List ℚ) (th : ℚ)
    (edges : List ℕ) (i : ℕ) :
    (∀ e ∈ edges, e < mosi.length) → (∀ e ∈ edges, e < miso.length) →
    ∃ l, decode_spi_groups mosi miso th edges i = .ok l ∧
      l.length = edges.length / 8 := by
  induction edges, i using decode_spi_groups.induct mosi miso th with
  | case1 e0 e1 e2 e3 e4 e5 e6 e7 rest i ih =>
    intro hm hs
    have hmg : ∀ e ∈ [e0, e1, e2, e3, e4, e5, e6, e7], e < mosi.length := by
      intro e hein
      apply hm
      simp only [List.mem_cons, List.not_mem_nil, or_false] at hein
      simp only [List.mem_cons]
      tauto
    have hsg : ∀ e ∈ [e0, e1, e2, e3, e4, e5, e6, e7], e < miso.length := by
      intro e hein
      apply hs
      simp only [List.mem_cons, List.not_mem_nil, or_false] at hein
      simp only [List.mem_cons]
      tauto
    have hmr : ∀ e ∈ rest, e < mosi.length := by
      intro e hein
      apply hm
      simp [hein]
    have hsr : ∀ e ∈ rest, e < miso.length := by
      intro e hein
      apply hs
      simp [hein]
    obtain ⟨l, hl, hlen⟩ := ih hmr hsr
    have heq : decode_spi_groups mosi miso th
        (e0 :: e1 :: e2 :: e3 :: e4 :: e5 :: e6 :: e7 :: rest) i =
        .ok ({ mosi := bitsToByte
                 ([e0, e1, e2, e3, e4, e5, e6, e7].map (bitAt mosi th)),
               miso := bitsToByte
                 ([e0, e1, e2, e3, e4, e5, e6, e7].map (bitAt miso th)),
               position := i, ptype := "SPI" } :: l) := by
      simp only [decode_spi_groups]
      rw [mapM_chan_bit_ok _ _ _ hmg, mapM_chan_bit_ok _ _ _ hsg, hl]
      rfl
    refine ⟨_, heq, ?_⟩
    simp only [List.length_cons, hlen]
    omega
  | case2 t x hne =>
    intro hm hs
    rcases t with _ | ⟨e0, _ | ⟨e1, _ | ⟨e2, _ | ⟨e3, _ | ⟨e4, _ | ⟨e5, _ |
      ⟨e6, _ | ⟨e7, rest⟩⟩⟩⟩⟩⟩⟩⟩
    · exact ⟨[], rfl, by simp⟩
    · exact ⟨[], rfl, by simp⟩
    · exact ⟨[], rfl, by simp⟩
    · exact ⟨[], rfl, by simp⟩
    · exact ⟨[], rfl, by simp⟩
    · exact ⟨[], rfl, by simp⟩
    · exact ⟨[], rfl, by simp⟩
    · exact ⟨[], rfl, by simp⟩
    · exact absurd rfl (hne e0 e1 e2 e3 e4 e5 e6 e7 rest)

/-- Every transaction produced by the byte loop records position
`i + 8k` for its group index `k`, and its bytes are the base-2 values
of the thresholded samples at that group's 8 consecutive edge
indices. -/
theorem decode_spi_groups_mem (mosi miso : List ℚ) (th : ℚ)
    (edges : List ℕ) (i : ℕ) :
    ∀ l, decode_spi_groups mosi miso th edges i = .ok l →
    ∀ t ∈ l, ∃ k, t.position = i + 8 * k ∧ 8 * k + 8 ≤ edges.length ∧
      t.mosi = bitsToByte (((edges.drop (8 * k)).take 8).map (bitAt mosi th)) ∧
      t.miso = bitsToByte (((edges.drop (8 * k)).take 8).map (bitAt miso th)) ∧
      t.ptype = "SPI" := by
  induction edges, i using decode_spi_groups.induct mosi miso th with
  | case1 e0 e1 e2 e3 e4 e5 e6 e7 rest i ih =>
    intro l hok t ht
    simp only [decode_spi_groups] at hok
    cases hmb : [e0, e1, e2, e3, e4, e5, e6, e7].mapM (chan_bit mosi th) with
    | error s =>
      rw [hmb] at hok
      simp [bind, Except.bind] at hok
    | ok gm =>
      rw [hmb] at hok
      cases hsb : [e0, e1, e2, e3, e4, e5, e6, e7].mapM (chan_bit miso th) with
      | error s =>
        rw [hsb] at hok
        simp [bind, Except.bind] at hok
      | ok gs =>
        rw [hsb] at hok
        cases hrest : decode_spi_groups mosi miso th rest (i + 8) with
        | error s =>
          rw [hrest] at hok
          simp [bind, Except.bind] at hok
        | ok lr =>
          rw [hrest] at hok
          simp only [bind, Except.bind, pure, Except.pure, Except.ok.injEq] at hok
          subst hok
          have hgm := mapM_chan_bit_inv mosi th _ gm hmb
          have hgs := mapM_chan_bit_inv miso th _ gs hsb
          rcases List.mem_cons.mp ht with rfl | htl
          · refine ⟨0, by simp, by simp, ?_, ?_, rfl⟩
            · show bitsToByte gm = _
              rw [hgm]
              rfl
            · show bitsToByte gs = _
              rw [hgs]
              rfl
          · obtain ⟨k, hpos, hlen, hmv, hsv, hty⟩ := ih lr hrest t htl
            refine ⟨k + 1, ?_, ?_, ?_, ?_, hty⟩
            · rw [hpos]
              ring
            · simp only [List.length_cons]
              omega
            · rw [hmv]
              have hdrop : (e0 :: e1 :: e2 :: e3 :: e4 :: e5 :: e6 :: e7 ::
                  rest).drop (8 * (k + 1)) = rest.drop (8 * k) := by
                rw [show 8 * (k + 1) = 8 * k + 8 by ring]
                rfl
              rw [hdrop]
            · rw [hsv]
              have hdrop : (e0 :: e1 :: e2 :: e3 :: e4 :: e5 :: e6 :: e7 ::
                  rest).drop (8 * (k + 1)) = rest.drop (8 * k) := by
                rw [show 8 * (k + 1) = 8 * k + 8 by ring]
                rfl
              rw [hdrop]
  | case2 t x hne =>
    intro l hok s hs
    rcases t with _ | ⟨e0, _ | ⟨e1, _ | ⟨e2, _ | ⟨e3, _ | ⟨e4, _ | ⟨e5, _ |
      ⟨e6, _ | ⟨e7, rest⟩⟩⟩⟩⟩⟩⟩⟩
    · cases hok; simp at hs
    · cases hok; simp at hs
    · cases hok; simp at hs
    · cases hok; simp at hs
    · cases hok; simp at hs
    · cases hok; simp at hs
    · cases hok; simp at hs
    · cases hok; simp at hs
    · exact absurd rfl (hne e0 e1 e2 e3 e4 e5 e6 e7 rest)

/-- C5: with equal-length channel buffers the SPI decoder succeeds and
returns exactly `⌊N/8⌋` transactions for `N` rising clock edges; the
trailing group of fewer than 8 rising edges produces no
transaction. -/
theorem C5_spi_transaction_count (mosi miso sclk cs : List ℚ)
    (threshold : ℚ) (hm : mosi.length = sclk.length)
    (hs : miso.length = sclk.length) :
    ∃ l, decode_spi mosi miso sclk cs threshold = .ok l ∧
      l.length = (risingEdges sclk threshold).length / 8 := by
  show ∃ l, decode_spi_groups mosi miso threshold
      (risingEdges sclk threshold) 0 = .ok l ∧
    l.length = (risingEdges sclk threshold).length / 8
  apply decode_spi_groups_ok
  · intro e he
    have := risingEdges_mem_lt sclk threshold e he
    omega
  · intro e he
    have := risingEdges_mem_lt sclk threshold e he
    omega

/-- Witness for C5: a 16-sample clock with 8 rising edges and matching
3.3 V / 0 V data channels decode into `8 / 8 = 1` transaction. -/
theorem C5_spi_transaction_count_witness :
    ∃ l, decode_spi spiHighW spiLowW spiClockW spiLowW (9 / 5) = .ok l ∧
      l.length = (risingEdges spiClockW (9 / 5)).length / 8 :=
  C5_spi_transaction_count spiHighW spiLowW spiClockW spiLowW (9 / 5)
    (by decide) (by decide)

/-- C10: every transaction the SPI decoder returns carries byte values
in `[0, 255]`, each equal to the most-significant-bit-first value of
the 8 threshold-compared samples taken at the group's consecutive
rising-edge indices. -/
theorem C10_spi_byte_values (mosi miso sclk cs : List ℚ) (threshold : ℚ)
    (l : List SpiTrans) (hok : decode_spi mosi miso sclk cs threshold = .ok l)
    (t : SpiTrans) (ht : t ∈ l) :
    t.mosi < 256 ∧ t.miso < 256 ∧
    t.mosi = msbValue ((((risingEdges sclk threshold).drop t.position).take 8).map
      (bitAt mosi threshold)) ∧
    t.miso = msbValue ((((risingEdges sclk threshold).drop t.position).take 8).map
      (bitAt miso threshold)) := by
  have hok2 : decode_spi_groups mosi miso threshold
      (risingEdges sclk threshold) 0 = .ok l := hok
  obtain ⟨k, hpos, hlen, hmv, hsv, _⟩ :=
    decode_spi_groups_mem _ _ _ _ _ l hok2 t ht
  have hp8 : t.position = 8 * k := by omega
  have hbits : ∀ (chan : List ℚ) (idxs : List ℕ),
      ∀ b ∈ idxs.map (bitAt chan threshold), b ≤ 1 := by
    intro chan idxs b hb
    obtain ⟨e, _, rfl⟩ := List.mem_map.mp hb
    unfold bitAt
    split <;> omega
  have hglen : (((risingEdges sclk threshold).drop (8 * k)).take 8).length = 8 := by
    rw [List.length_take, List.length_drop]
    omega
  refine ⟨?_, ?_, ?_, ?_⟩
  · rw [hmv]
    have hb := bitsToByte_lt
      ((((risingEdges sclk threshold).drop (8 * k)).take 8).map
        (bitAt mosi threshold))
      (hbits mosi _)
    have h256 : (2 : ℕ) ^ 8 = 256 := by norm_num
    rw [List.length_map, hglen, h256] at hb
    exact hb
  · rw [hsv]
    have hb := bitsToByte_lt
      ((((risingEdges sclk threshold).drop (8 * k)).take 8).map
        (bitAt miso threshold))
      (hbits miso _)
    have h256 : (2 : ℕ) ^ 8 = 256 := by norm_num
    rw [List.length_map, hglen, h256] at hb
    exact hb
  · rw [hp8, hmv, bitsToByte_eq_msbValue]
  · rw [hp8, hsv, bitsToByte_eq_msbValue]

/-- Witness for C10: the single transaction of the concrete decode has
MOSI byte 255 (all bits high) and MISO byte 0, matching the MSB-first
reconstruction. -/
theorem C10_spi_byte_values_witness :
    (255 : ℕ) < 256 ∧ (0 : ℕ) < 256 ∧
    (255 : ℕ) = msbValue ((((risingEdges spiClockW (9 / 5)).drop 0).take 8).map
      (bitAt spiHighW (9 / 5))) ∧
    (0 : ℕ) = msbValue ((((risingEdges spiClockW (9 / 5)).drop 0).take 8).map
      (bitAt spiLowW (9 / 5))) :=
  C10_spi_byte_values spiHighW spiLowW spiClockW spiLowW (9 / 5)
    [⟨255, 0, 0, "SPI"⟩] (by decide) ⟨255, 0, 0, "SPI"⟩ (by decide)

/-- C4 (code bug): with SCL constantly low (0 V) and SDA falling from
3.3 V to 0 V, the start-condition detector of `decode_i2c` reports
index 0 as a start even though the thresholded SCL is low there: the
source tests only `scl_edges == 0` and `sda_edges == -1` and never
checks the SCL level its own comment demands. -/
theorem C4_i2c_start_without_scl_high :
    i2cStartIndices
        (np_diff ((binarize [0, 0] (9 / 5)).map boolInt))
        (np_diff ((binarize [33 / 10, 0] (9 / 5)).map boolInt)) = [0] ∧
    (binarize [0, 0] (9 / 5)).getD 0 false = false := by
  decide

/-- C6 (counterexample): a tick on a Running state whose channel-0
buffer already holds `[1, 2]` and whose configured bound is 3 leaves
only the new batch `[3, 4]` in the buffer, not the most recent 3
samples `[2, 3, 4]` that FIFO eviction would keep. -/
theorem C6_no_fifo_eviction_counterexample :
    ((update_capture schedRunW
        [(0, ([2/1000, 3/1000], [3, 4]))]).capture_data 0).map Prod.snd =
      some [3, 4] ∧
    fifoAppend [1, 2] [3, 4] schedRunW.buffer_size = [2, 3, 4] ∧
    ((update_capture schedRunW
        [(0, ([2/1000, 3/1000], [3, 4]))]).capture_data 0).map Prod.snd ≠
      some (fifoAppend [1, 2] [3, 4] schedRunW.buffer_size) := by
  refine ⟨?_, ?_, ?_⟩ <;> decide

/-- C6 (amended): each capture tick REPLACES an enabled channel's
buffer with the incoming batch — samples are never accumulated and the
configured bound is never applied, so after any tick the buffer is
exactly the latest batch. -/
theorem C6_tick_replaces_buffer (s : AnalyzerState) (ch : ℕ)
    (timeL dataL : List ℚ)
    (hc : s.is_capturing = true)
    (hch : ch < s.channels_enabled.length)
    (hen : s.channels_enabled.getD ch false = true) :
    (update_capture s [(ch, (timeL, dataL))]).capture_data ch =
      some (timeL, dataL) := by
  unfold update_capture
  rw [hc]
  have hen2 : s.channels_enabled[ch] = true := by
    rw [← List.getD_eq_getElem s.channels_enabled false hch]
    exact hen
  simp [hch, hen, hen2, Function.update_same]

/-- Witness for the amended C6 at the concrete Running state. -/
theorem C6_tick_replaces_buffer_witness :
    (update_capture schedRunW [(0, ([0], [5]))]).capture_data 0 =
      some ([0], [5]) :=
  C6_tick_replaces_buffer schedRunW 0 [0] [5] rfl (by decide) (by decide)

/-- C8 (counterexample): calling `start_capture` while already Running
does not leave the scheduler state unchanged — it wipes the
accumulated channel buffers (and installs a fresh timer). -/
theorem C8_start_not_idempotent_counterexample :
    (start_capture schedRunW).is_capturing = true ∧
    (start_capture schedRunW).capture_data 0 = none ∧
    schedRunW.capture_data 0 = some ([0, 1/1000], [1, 2]) ∧
    start_capture schedRunW ≠ schedRunW := by
  refine ⟨by decide, by decide, by decide, ?_⟩
  intro h
  have h2 := congrArg (fun st => st.capture_data 0) h
  exact absurd h2 (by decide)

/-- C8 (amended): `start_capture` on a valid Running state restarts
the capture — the flag stays set, every buffer is cleared, and a fresh
active tick source is installed — while `stop_capture` on an Idle
state (no active timers) really is a no-op. -/
theorem C8_start_restarts_stop_idle_noop (s sIdle : AnalyzerState)
    (hvalid : validate_capture_settings s = true)
    (_hrun : s.is_capturing = true)
    (hidle : IsIdle sIdle) :
    ((start_capture s).is_capturing = true ∧
     (∀ ch, (start_capture s).capture_data ch = none) ∧
     (start_capture s).capture_timer = some ⟨s.next_timer_id, true⟩) ∧
    stop_capture sIdle = sIdle := by
  constructor
  · have hv : ¬ validate_capture_settings s = false := by simp [hvalid]
    unfold start_capture
    rw [if_neg hv]
    by_cases ha : s.auto_save
    · rw [if_pos ha]
      exact ⟨rfl, fun ch => rfl, rfl⟩
    · rw [if_neg ha]
      exact ⟨rfl, fun ch => rfl, rfl⟩
  · obtain ⟨h1, h2, h3⟩ := hidle
    have hct : sIdle.capture_timer.map (fun t => { t with active := false }) =
        sIdle.capture_timer := by
      cases hc2 : sIdle.capture_timer with
      | none => rfl
      | some t =>
        have ha := h2 t hc2
        cases t with
        | mk tid tact =>
          simp only [TimerState.active] at ha
          simp [ha]
    have hast : sIdle.auto_save_timer.map (fun t => { t with active := false }) =
        sIdle.auto_save_timer := by
      cases hc2 : sIdle.auto_save_timer with
      | none => rfl
      | some t =>
        have ha := h3 t hc2
        cases t with
        | mk tid tact =>
          simp only [TimerState.active] at ha
          simp [ha]
    rcases sIdle with ⟨ic, cd, ct, ast, nti, ce, sr, dc, asv, bs⟩
    have h1e : ic = false := h1
    subst h1e
    simp only [stop_capture] at hct hast ⊢
    simp [hct, hast]

/-- Witness for the amended C8 at the concrete Running/Idle states. -/
theorem C8_start_restarts_stop_idle_noop_witness :
    ((start_capture schedRunW).is_capturing = true ∧
     (∀ ch, (start_capture schedRunW).capture_data ch = none) ∧
     (start_capture schedRunW).capture_timer =
       some ⟨schedRunW.next_timer_id, true⟩) ∧
    stop_capture schedIdleW = schedIdleW :=
  C8_start_restarts_stop_idle_noop schedRunW schedIdleW (by decide) rfl
    ⟨rfl,
     by
       intro t ht
       injection ht with hinj
       subst hinj
       rfl,
     by
       intro t ht
       exact Option.noConfusion ht⟩

/-- The first-minimum scan returns an index inside the scanned
region (or the incoming best index, which is smaller). -/
theorem argminAbsAux_lt (c : ℚ) (xs : List ℚ) : ∀ (bv : ℚ) (bi i : ℕ),
    bi < i → argminAbsAux c xs bv bi i < i + xs.length := by
  induction xs with
  | nil =>
    intro bv bi i h
    simp only [argminAbsAux, List.length_nil]
    omega
  | cons x xs ih =>
    intro bv bi i h
    simp only [argminAbsAux, List.length_cons]
    split
    · have := ih |x - c| i (i + 1) (Nat.lt_succ_self i)
      omega
    · have := ih bv bi (i + 1) (by omega)
      omega

/-- `np.argmin` over a non-empty array returns an in-range index. -/
theorem np_argmin_abs_lt (l : List ℚ) (c : ℚ) (i : ℕ)
    (h : np_argmin_abs l c = some i) : i < l.length := by
  cases l with
  | nil => simp [np_argmin_abs] at h
  | cons x xs =>
    simp only [np_argmin_abs, Option.some.injEq] at h
    subst h
    have := argminAbsAux_lt c xs |x - c| 0 1 (by omega)
    simp only [List.length_cons]
    omega

/-- C9: on the empty buffer the cursor computation yields no
measurement (and does not fail), and whenever both cursors resolve to
the same nearest sample index the published record has `Δt = 0`,
`Δv = 0` and no derived frequency (never an infinite value). -/
theorem C9_cursor_same_index (timeL dataL : List ℚ) (c1 c2 : ℚ)
    (hlen : dataL.length = timeL.length) :
    update_cursor_measurements [] dataL c1 c2 = none ∧
    (∀ i, np_argmin_abs timeL c1 = some i → np_argmin_abs timeL c2 = some i →
      ∃ r, update_cursor_measurements timeL dataL c1 c2 = some r ∧
        r.dt = 0 ∧ r.dv = 0 ∧ r.freq = none) := by
  constructor
  · rfl
  · intro i h1 h2
    have hi : i < timeL.length := np_argmin_abs_lt _ _ _ h1
    have hid : i < dataL.length := by omega
    have hred : update_cursor_measurements timeL dataL c1 c2 =
        cursorCore timeL dataL i i := by
      unfold update_cursor_measurements
      rw [h1, h2]
    rw [hred]
    unfold cursorCore
    rw [if_pos ⟨hid, hid⟩]
    refine ⟨_, rfl, ?_, ?_, ?_⟩
    · show |timeL.getD i 0 - timeL.getD i 0| * 1000 = 0
      simp
    · show |dataL.getD i 0 - dataL.getD i 0| = 0
      simp
    · show (if 0 < |timeL.getD i 0 - timeL.getD i 0| * 1000 then
          some (1 / (|timeL.getD i 0 - timeL.getD i 0| * 1000 * (1 / 1000)))
        else none) = none
      simp

/-- Witness for C9: with `time = [0, 1/1000]`, `data = [1/2, 3/5]` and
both cursors at 0 (both nearest index 0) the record reports zero
deltas and no frequency. -/
theorem C9_cursor_same_index_witness :
    ∃ r, update_cursor_measurements [0, 1/1000] [1/2, 3/5] 0 0 = some r ∧
      r.dt = 0 ∧ r.dv = 0 ∧ r.freq = none :=
  (C9_cursor_same_index [0, 1/1000] [1/2, 3/5] 0 0 (by decide)).2 0
    (by decide) (by decide)

/-- The first-maximum scan returns an index whose value dominates the
incoming best value and every scanned element. -/
theorem npArgmaxAux_spec (xs : List ℝ) : ∀ (bv : ℝ) (bi i : ℕ),
    ∃ v, ((npArgmaxAux xs bv bi i = bi ∧ v = bv) ∨
      (∃ j, j < xs.length ∧ npArgmaxAux xs bv bi i = i + j ∧
        v = xs.getD j 0)) ∧
      bv ≤ v ∧ ∀ j, j < xs.length → xs.getD j 0 ≤ v := by
  induction xs with
  | nil =>
    intro bv bi i
    refine ⟨bv, Or.inl ⟨rfl, rfl⟩, le_refl bv, ?_⟩
    intro j hj
    simp at hj
  | cons x xs ih =>
    intro bv bi i
    by_cases hx : bv < x
    · obtain ⟨v, hcase, hge, hall⟩ := ih x i (i + 1)
      refine ⟨v, ?_, le_of_lt (lt_of_lt_of_le hx hge), ?_⟩
      · rcases hcase with ⟨heq, hveq⟩ | ⟨j, hj, heq, hveq⟩
        · right
          refine ⟨0, by simp, ?_, by simpa using hveq⟩
          simp only [npArgmaxAux, if_pos hx, heq]
          omega
        · right
          refine ⟨j + 1, by simpa using hj, ?_, ?_⟩
          · simp only [npArgmaxAux, if_pos hx, heq]
            omega
          · simpa [List.getD_cons_succ] using hveq
      · intro j hj
        cases j with
        | zero =>
          simpa using hge
        | succ j2 =>
          simp only [List.getD_cons_succ]
          exact hall j2 (by simpa using hj)
    · obtain ⟨v, hcase, hge, hall⟩ := ih bv bi (i + 1)
      refine ⟨v, ?_, hge, ?_⟩
      · rcases hcase with ⟨heq, hveq⟩ | ⟨j, hj, heq, hveq⟩
        · left
          refine ⟨?_, hveq⟩
          simp only [npArgmaxAux, if_neg hx, heq]
        · right
          refine ⟨j + 1, by simpa using hj, ?_, ?_⟩
          · simp only [npArgmaxAux, if_neg hx, heq]
            omega
          · simpa [List.getD_cons_succ] using hveq
      · intro j hj
        cases j with
        | zero =>
          simpa using le_trans (le_of_not_lt hx) hge
        | succ j2 =>
          simp only [List.getD_cons_succ]
          exact hall j2 (by simpa using hj)

/-- `np.argmax` of a non-empty array: in range and first-maximal. -/
theorem np_argmax_spec (l : List ℝ) (hne : l ≠ []) :
    np_argmax l < l.length ∧
    ∀ j, j < l.length → l.getD j 0 ≤ l.getD (np_argmax l) 0 := by
  cases l with
  | nil => exact absurd rfl hne
  | cons x xs =>
    obtain ⟨v, hcase, hge, hall⟩ := npArgmaxAux_spec xs x 0 1
    have hres : np_argmax (x :: xs) = npArgmaxAux xs x 0 1 := rfl
    rcases hcase with ⟨heq, hveq⟩ | ⟨j, hj, heq, hveq⟩
    · constructor
      · rw [hres, heq]
        simp
      · intro j hj2
        rw [hres, heq]
        simp only [List.getD_cons_zero]
        cases j with
        | zero =>
          simp
        | succ j2 =>
          simp only [List.getD_cons_succ]
          have := hall j2 (by simpa using hj2)
          rw [hveq] at this
          exact this
    · have hval : (x :: xs).getD (1 + j) 0 = xs.getD j 0 := by
        rw [Nat.add_comm]
        simp [List.getD_cons_succ]
      constructor
      · rw [hres, heq]
        simp only [List.length_cons]
        omega
      · intro j2 hj2
        rw [hres, heq, hval, ← hveq]
        cases j2 with
        | zero =>
          simpa using le_trans (le_refl x) hge
        | succ j3 =>
          simp only [List.getD_cons_succ]
          exact hall j3 (by simpa using hj2)

/-- The magnitude list has half as many bins as the buffer has
samples. -/
theorem fftMagnitude_length (data : List ℝ) :
    (fftMagnitude data).length = data.length / 2 := by
  simp [fftMagnitude]

/-- C7: when more than 10 magnitude bins exist, the published
fundamental is a bin index at least 10, in range, of maximal magnitude
among all bins of index at least 10, and it is reported with that
bin's magnitude in dB, computed as `20*log10(magnitude + 1e-10)`. -/
theorem C7_fft_fundamental (data : List ℝ)
    (h : 10 < (fftMagnitude data).length) :
    10 ≤ fundamental_idx data ∧
    fundamental_idx data < (fftMagnitude data).length ∧
    (∀ j, 10 ≤ j → j < (fftMagnitude data).length →
      (fftMagnitude data).getD j 0 ≤
        (fftMagnitude data).getD (fundamental_idx data) 0) ∧
    fundamental_report data =
      some ((fftFrequencies data.length).getD (fundamental_idx data) 0,
        20 * Real.logb 10
          ((fftMagnitude data).getD (fundamental_idx data) 0 + 1 / 10 ^ 10)) := by
  have hdl : ((fftMagnitude data).drop 10).length =
      (fftMagnitude data).length - 10 := List.length_drop 10 _
  have hdne : (fftMagnitude data).drop 10 ≠ [] := by
    intro hcon
    rw [hcon] at hdl
    simp at hdl
    omega
  obtain ⟨hlt, hmax⟩ := np_argmax_spec ((fftMagnitude data).drop 10) hdne
  have hfi : fundamental_idx data =
      np_argmax ((fftMagnitude data).drop 10) + 10 := rfl
  have hrel : ∀ k, k < ((fftMagnitude data).drop 10).length →
      ((fftMagnitude data).drop 10).getD k 0 =
        (fftMagnitude data).getD (10 + k) 0 := by
    intro k hk
    have hk2 : 10 + k < (fftMagnitude data).length := by omega
    rw [List.getD_eq_getElem _ _ hk, List.getD_eq_getElem _ _ hk2]
    exact List.getElem_drop _
  have hfi_lt : fundamental_idx data < (fftMagnitude data).length := by
    rw [hfi]
    omega
  refine ⟨by rw [hfi]; omega, hfi_lt, ?_, ?_⟩
  · intro j hj10 hjlen
    have hjd : j - 10 < ((fftMagnitude data).drop 10).length := by omega
    have h1 := hmax (j - 10) hjd
    rw [hrel (j - 10) hjd] at h1
    rw [hrel (np_argmax ((fftMagnitude data).drop 10)) hlt] at h1
    rw [show 10 + (j - 10) = j by omega] at h1
    rw [hfi, Nat.add_comm]
    exact h1
  · unfold fundamental_report
    rw [if_pos h]
    have hdbl : (np_fft_db data).length = (fftMagnitude data).length := by
      simp [np_fft_db]
    have hdb : (np_fft_db data).getD (fundamental_idx data) 0 =
        20 * Real.logb 10
          ((fftMagnitude data).getD (fundamental_idx data) 0 + 1 / 10 ^ 10) := by
      have hlt2 : fundamental_idx data < (np_fft_db data).length := by omega
      rw [List.getD_eq_getElem _ _ hlt2, List.getD_eq_getElem _ _ hfi_lt]
      simp [np_fft_db]
    rw [hdb]

/-- Witness for C7 at a concrete 22-sample buffer (11 magnitude
bins). -/
theorem C7_fft_fundamental_witness :
    10 ≤ fundamental_idx (List.replicate 22 (1 : ℝ)) ∧
    fundamental_idx (List.replicate 22 (1 : ℝ)) <
      (fftMagnitude (List.replicate 22 (1 : ℝ))).length ∧
    (∀ j, 10 ≤ j → j < (fftMagnitude (List.replicate 22 (1 : ℝ))).length →
      (fftMagnitude (List.replicate 22 (1 : ℝ))).getD j 0 ≤
        (fftMagnitude (List.replicate 22 (1 : ℝ))).getD
          (fundamental_idx (List.replicate 22 (1 : ℝ))) 0) ∧
    fundamental_report (List.replicate 22 (1 : ℝ)) =
      some ((fftFrequencies (List.replicate 22 (1 : ℝ)).length).getD
          (fundamental_idx (List.replicate 22 (1 : ℝ))) 0,
        20 * Real.logb 10
          ((fftMagnitude (List.replicate 22 (1 : ℝ))).getD
            (fundamental_idx (List.replicate 22 (1 : ℝ))) 0 + 1 / 10 ^ 10)) :=
  C7_fft_fundamental (List.replicate 22 (1 : ℝ))
    (by rw [fftMagnitude_length]; simp)
